import Mathlib

/-!
Verification of the `contains_snippet` matching core: the raw substring
matcher, the commented line-sequence matcher, the extension-based policy
dispatch, and the override-rule parser, embedded from
`src/contains_snippet/matcher.py` and `src/contains_snippet/cli.py`.

Strings are modelled by Lean `String` (a list of characters); the Python
string methods `splitlines`, `rstrip`, `strip`, `lower` and `split` are
embedded below over character lists.
-/

namespace ContainsSnippet

/-- Characters that the Python method `str.splitlines` treats as line boundaries:
LF, CR, VT, FF, FS, GS, RS, NEL, LINE SEPARATOR, PARAGRAPH SEPARATOR
(with CRLF consumed as a single boundary in `splitlinesAux`). -/
def isLineBreak (ch : Char) : Bool :=
  ch = '\n' || ch = '\r' || ch = '\x0b' || ch = '\x0c' ||
  ch = '\x1c' || ch = '\x1d' || ch = '\x1e' || ch = '\x85' ||
  ch = '\u2028' || ch = '\u2029'

/-- Characters that the Python method `str.isspace` accepts; `str.rstrip()` and
`str.strip()` remove exactly these. -/
def pyIsSpace (ch : Char) : Bool :=
  ch = ' ' || ch = '\t' || ch = '\n' || ch = '\r' || ch = '\x0b' || ch = '\x0c' ||
  ch = '\x1c' || ch = '\x1d' || ch = '\x1e' || ch = '\x1f' || ch = '\x85' ||
  ch = '\xa0' || ch = '\u1680' || ('\u2000' ≤ ch && ch ≤ '\u200a') ||
  ch = '\u2028' || ch = '\u2029' || ch = '\u202f' || ch = '\u205f' || ch = '\u3000'

/-- Worker for Python `str.splitlines`: `acc` holds the current
(reversed) line; a terminal partial line is emitted only when nonempty,
so a trailing line boundary produces no trailing empty line. -/
def splitlinesAux : List Char → List Char → List (List Char)
  | [], acc => if acc = [] then [] else [acc.reverse]
  | [ch], acc =>
      if isLineBreak ch then [acc.reverse] else [(ch :: acc).reverse]
  | ch :: ch2 :: rest, acc =>
      if ch = '\r' ∧ ch2 = '\n' then acc.reverse :: splitlinesAux rest []
      else if isLineBreak ch then acc.reverse :: splitlinesAux (ch2 :: rest) []
      else splitlinesAux (ch2 :: rest) (ch :: acc)

/-- Python `str.splitlines()`: split on line boundaries, boundaries
stripped, no trailing empty line for a terminal boundary. -/
def splitlines (s : String) : List String :=
  (splitlinesAux s.data []).map (fun l => ⟨l⟩)

/-- Python `str.rstrip()`: remove trailing whitespace. -/
def pyRstrip (s : String) : String :=
  ⟨(s.data.reverse.dropWhile pyIsSpace).reverse⟩

/-- Python `str.strip()`: remove leading and trailing whitespace. -/
def pyStrip (s : String) : String :=
  ⟨((s.data.dropWhile pyIsSpace).reverse.dropWhile pyIsSpace).reverse⟩

/-- Python `str.lower()` (ASCII case mapping, the range exercised here). -/
def strLower (s : String) : String :=
  ⟨s.data.map Char.toLower⟩

/-- Embedding of `matcher.raw_match`: `snippet in file_content`, substring
containment under exact character comparison. -/
def raw_match (snippet file_content : String) : Bool :=
  decide (List.IsInfix snippet.data file_content.data)

/-- The nested `line_matches` of `matcher.commented_match`: an empty
snippet line matches an empty content line or a bare comment marker
(content rstripped equals the prefix); a nonempty snippet line matches
`pfx ++ " " ++ line` or `pfx ++ line`. -/
def line_matches (pfx snippet_line file_line : String) : Bool :=
  if snippet_line = "" then
    decide (file_line = "") || decide (pyRstrip file_line = pfx)
  else
    decide (file_line = pfx ++ " " ++ snippet_line) ||
    decide (file_line = pfx ++ snippet_line)

/-- Embedding of `matcher.commented_match`: vacuous success on an empty snippet-line
list, failure on an empty content-line list, otherwise a scan over every
start offset, anchored on the first snippet line, testing the whole
window. -/
def commented_match (snippet file_content : String) (pfx : String := "#") : Bool :=
  let snippet_lines := splitlines snippet
  if snippet_lines = [] then true
  else
    let file_lines := splitlines file_content
    if file_lines = [] then false
    else
      (List.range file_lines.length).any fun start_idx =>
        line_matches pfx (snippet_lines.getD 0 "") (file_lines.getD start_idx "") &&
        decide (start_idx + snippet_lines.length ≤ file_lines.length) &&
        (List.range snippet_lines.length).all fun offset =>
          line_matches pfx (snippet_lines.getD offset "")
            (file_lines.getD (start_idx + offset) "")

/-- A Python dict from extension to prefix-or-raw, as an association
list with unique keys in insertion order; `none` is the raw sentinel. -/
abbrev PrefixDict := List (String × Option String)

/-- Dict lookup: the value stored under `k`, if any. -/
def dictLookup (k : String) : PrefixDict → Option (Option String)
  | [] => none
  | (k', v) :: rest => if k' = k then some v else dictLookup k rest

/-- Python dict assignment `d[k] = v`: replace in place when the key
exists, otherwise append. -/
def dictInsert (k : String) (v : Option String) : PrefixDict → PrefixDict
  | [] => [(k, v)]
  | (k', v') :: rest =>
      if k' = k then (k', v) :: rest else (k', v') :: dictInsert k v rest

/-- Python `base.copy(); .update(o)`: assign every entry of `o` into a
copy of `base`, left to right. -/
def dictUpdate (base o : PrefixDict) : PrefixDict :=
  o.foldl (fun d e => dictInsert e.1 e.2 d) base

/-- Embedding of `cli.BUILTIN_PREFIX_MAP`. -/
def BUILTIN_PREFIX_MAP : PrefixDict :=
  [(".md", none), (".py", some "#"), (".yml", some "#"), (".yaml", some "#")]

/-- Embedding of `matcher.check_file`, with the file content and its extension
(`file_path.suffix`) passed in place of the I/O read: lowercase the
suffix; a forced prefix dominates; else a supplied map decides (raw
sentinel or mapped prefix, missing key means raw); else the hard-coded
extension defaults. -/
def check_file (snippet file_content ext : String)
    (cmt_pfx : Option String) (pfx_map : Option PrefixDict) : Bool :=
  let suffix := strLower ext
  match cmt_pfx with
  | some p => commented_match snippet file_content p
  | none =>
    match pfx_map with
    | some m =>
      match dictLookup suffix m with
      | some (some mapped) => commented_match snippet file_content mapped
      | some none => raw_match snippet file_content
      | none => raw_match snippet file_content
    | none =>
      if suffix = ".md" then raw_match snippet file_content
      else if suffix ∈ [".py", ".yml", ".yaml"] then commented_match snippet file_content
      else raw_match snippet file_content

/-- Python `str.split(sep)` for a single-character separator: segments
between occurrences of `sep`; the empty string yields one empty segment. -/
def splitOnChar (sep : Char) : List Char → List (List Char)
  | [] => [[]]
  | ch :: rest =>
      if ch = sep then [] :: splitOnChar sep rest
      else
        match splitOnChar sep rest with
        | [] => [[ch]]
        | seg :: segs => (ch :: seg) :: segs

/-- Python `entry.split(sep, 1)` unpacked into two parts: the text
before the first `sep` and the text after it; `none` when `sep` is
absent (Python raises `ValueError` on unpacking). -/
def splitOnceChar (sep : Char) : List Char → Option (List Char × List Char)
  | [] => none
  | ch :: rest =>
      if ch = sep then some ([], rest)
      else (splitOnceChar sep rest).map (fun p => (ch :: p.1, p.2))

/-- The error surfaced by the rule parser: a comma-separated override
segment without an `=` separator. -/
inductive RuleError where
  | MalformedRuleEntry (segment : String)
  deriving DecidableEq

/-- The loop body of `cli.parse_prefix_map`: for each segment, split at
the first `=`; strip and lowercase the extension, strip the value, map
the (case-insensitive) literal `raw` to the raw sentinel, and assign
into the accumulating dict. -/
def parseEntries : List (List Char) → PrefixDict → Except RuleError PrefixDict
  | [], result => .ok result
  | entry :: rest, result =>
    match splitOnceChar '=' entry with
    | none => .error (.MalformedRuleEntry ⟨entry⟩)
    | some (e, v) =>
      let ext := strLower (pyStrip ⟨e⟩)
      let value := pyStrip ⟨v⟩
      let mapped := if strLower value = "raw" then none else some value
      parseEntries rest (dictInsert ext mapped result)

/-- Embedding of `cli.parse_prefix_map`: split the override string on commas and
build the dict, failing on the first segment lacking `=`. -/
def parse_prefix_map (map_str : String) : Except RuleError PrefixDict :=
  parseEntries (splitOnChar ',' map_str.data) []

/-- The line-equivalence relation exactly as the specification words it
(§4.2 step 3), used to state claims against `line_matches`. -/
def lineEquiv (pfx s c : String) : Prop :=
  if s = "" then c = "" ∨ pyRstrip c = pfx
  else c = pfx ++ " " ++ s ∨ c = pfx ++ s

/-- Whether a string ends in one of the line-boundary characters of
`splitlines` (false for the empty string, which has no last character). -/
def endsWithLineBoundary (s : String) : Bool :=
  match s.data.getLast? with
  | some ch => isLineBreak ch
  | none => false

lemma line_matches_iff (pfx s c : String) :
    line_matches pfx s c = true ↔ lineEquiv pfx s c := by
  by_cases hs : s = "" <;> simp [line_matches, lineEquiv, hs]

/-- Claim C1: `commented_match` returns true iff the snippet splits into
zero lines (vacuously, even for empty content); otherwise false when the
content splits into zero lines; otherwise true iff some start offset `i`
with `i + n ≤ m` makes every snippet line `S[k]` line-equivalent to
`C[i+k]`, where line-equivalence is the relation of spec section 4.2. -/
theorem C1_commented_match_iff (s c p : String) :
    commented_match s c p = true ↔
      (splitlines s = [] ∨
        (splitlines c ≠ [] ∧
          ∃ i, i + (splitlines s).length ≤ (splitlines c).length ∧
            ∀ k < (splitlines s).length,
              lineEquiv p ((splitlines s).getD k "") ((splitlines c).getD (i + k) ""))) := by
  unfold commented_match
  by_cases hs : splitlines s = []
  · simp [hs]
  · by_cases hc : splitlines c = []
    · simp [hs, hc]
    · simp only [if_neg hs, if_neg hc]
      rw [List.any_eq_true]
      constructor
      · rintro ⟨i, hmem, hcond⟩
        rw [Bool.and_eq_true, Bool.and_eq_true] at hcond
        obtain ⟨⟨_, hfit⟩, hall⟩ := hcond
        refine Or.inr ⟨hc, i, by simpa using hfit, ?_⟩
        intro k hk
        rw [List.all_eq_true] at hall
        exact (line_matches_iff ..).1 (hall k (List.mem_range.mpr hk))
      · rintro (h | ⟨-, i, hfit, hall⟩)
        · exact absurd h hs
        · have hn : 0 < (splitlines s).length := List.length_pos.mpr hs
          have him : i < (splitlines c).length := by omega
          refine ⟨i, List.mem_range.mpr him, ?_⟩
          rw [Bool.and_eq_true, Bool.and_eq_true]
          refine ⟨⟨?_, by simpa using hfit⟩, ?_⟩
          · have h0 := hall 0 hn
            rw [Nat.add_zero] at h0
            exact (line_matches_iff ..).2 h0
          · rw [List.all_eq_true]
            intro k hk
            exact (line_matches_iff ..).2 (hall k (List.mem_range.mp hk))

/-- Witness for C1 at snippet `"x"`, content `"# x"`, comment marker
`"#"`. -/
theorem C1_commented_match_iff_witness :
    splitlines "x" = [] ∨
      (splitlines "# x" ≠ [] ∧
        ∃ i, i + (splitlines "x").length ≤ (splitlines "# x").length ∧
          ∀ k < (splitlines "x").length,
            lineEquiv "#" ((splitlines "x").getD k "")
              ((splitlines "# x").getD (i + k) "")) :=
  (C1_commented_match_iff "x" "# x" "#").1 (by decide)

/-- Claim C2: `raw_match` is exact contiguous substring containment, and
the empty snippet matches every content, the empty content included. -/
theorem C2_raw_match_iff (s c : String) :
    (raw_match s c = true ↔ List.IsInfix s.data c.data) ∧
    raw_match "" c = true ∧ raw_match "" "" = true := by
  refine ⟨by simp [raw_match], ?_, by decide⟩
  have h : ("" : String).data = [] := rfl
  simp [raw_match, h, List.nil_infix]

/-- Claim C3: a forced comment marker strictly dominates: with both a
forced comment marker and a mapping supplied, `check_file` is exactly
`commented_match` with that marker, independent of extension and
mapping. -/
theorem C3_forced_dominates (snippet content ext p : String) (m : PrefixDict) :
    check_file snippet content ext (some p) (some m) =
      commented_match snippet content p ∧
    ∀ pm : Option PrefixDict, ∀ ext' : String,
      check_file snippet content ext' (some p) pm =
        commented_match snippet content p :=
  ⟨rfl, fun _ _ => rfl⟩

/-- Claim C8: both matchers are deterministic total boolean functions:
each input triple yields exactly one boolean and repeated invocations
agree. -/
theorem C8_total_deterministic (s c p : String) :
    (raw_match s c = true ∨ raw_match s c = false) ∧
    (commented_match s c p = true ∨ commented_match s c p = false) ∧
    raw_match s c = raw_match s c ∧
    commented_match s c p = commented_match s c p :=
  ⟨Bool.eq_false_or_eq_true _, Bool.eq_false_or_eq_true _, rfl, rfl⟩

/-- Claim C4: with a mapping and no forced marker, `check_file`
lowercases the extension and dispatches on the mapping entry: an
explicit string value selects commented matching with that value, the
raw sentinel selects raw matching, and a missing key selects raw
matching. -/
theorem C4_mapping_dispatch (snippet content ext q : String) (m : PrefixDict) :
    (dictLookup (strLower ext) m = some (some q) →
      check_file snippet content ext none (some m) =
        commented_match snippet content q) ∧
    (dictLookup (strLower ext) m = some none →
      check_file snippet content ext none (some m) =
        raw_match snippet content) ∧
    (dictLookup (strLower ext) m = none →
      check_file snippet content ext none (some m) =
        raw_match snippet content) := by
  refine ⟨fun h => ?_, fun h => ?_, fun h => ?_⟩ <;> simp [check_file, h]

/-- Witness for C4 at extension `".py"` (also exercising the missing-key
case at `".js"`). -/
theorem C4_mapping_dispatch_witness :
    check_file "x" "x" ".py" none (some [(".py", some "//")]) =
      commented_match "x" "x" "//" ∧
    check_file "x" "x" ".py" none (some [(".py", none)]) = raw_match "x" "x" ∧
    check_file "x" "x" ".js" none (some [(".py", none)]) = raw_match "x" "x" :=
  ⟨(C4_mapping_dispatch "x" "x" ".py" "//" [(".py", some "//")]).1 (by decide),
   (C4_mapping_dispatch "x" "x" ".py" "//" [(".py", none)]).2.1 (by decide),
   (C4_mapping_dispatch "x" "x" ".js" "//" [(".py", none)]).2.2 (by decide)⟩

lemma builtin_lookup_eq (u : String) :
    dictLookup u BUILTIN_PREFIX_MAP =
      if u = ".md" then some none
      else if u = ".py" ∨ u = ".yml" ∨ u = ".yaml" then some (some "#")
      else none := by
  simp only [BUILTIN_PREFIX_MAP, dictLookup]
  by_cases h1 : u = ".md" <;> by_cases h2 : u = ".py" <;>
    by_cases h3 : u = ".yml" <;> by_cases h4 : u = ".yaml" <;>
    simp_all [eq_comm]

/-- Claim C5: the default dispatch (no forced marker, no mapping) agrees
with dispatch through the built-in rule set: `.md` selects raw matching,
`.py`, `.yml`, `.yaml` select commented matching with `"#"`, and every
other extension selects raw matching (all after lowercasing). -/
theorem C5_default_equals_builtin (snippet content ext : String) :
    check_file snippet content ext none none =
      check_file snippet content ext none (some BUILTIN_PREFIX_MAP) ∧
    (strLower ext = ".md" →
      check_file snippet content ext none none = raw_match snippet content) ∧
    ((strLower ext = ".py" ∨ strLower ext = ".yml" ∨ strLower ext = ".yaml") →
      check_file snippet content ext none none =
        commented_match snippet content "#") ∧
    (strLower ext ≠ ".md" →
      ¬ (strLower ext = ".py" ∨ strLower ext = ".yml" ∨ strLower ext = ".yaml") →
      check_file snippet content ext none none = raw_match snippet content) := by
  refine ⟨?_, fun h => by simp [check_file, h], fun h => ?_, fun h1 h2 => ?_⟩
  · simp only [check_file, builtin_lookup_eq]
    by_cases h1 : strLower ext = ".md"
    · simp [h1]
    · by_cases h2 : strLower ext = ".py" ∨ strLower ext = ".yml" ∨
          strLower ext = ".yaml"
      · simp [h1, h2]
      · push_neg at h2
        simp [h1, h2]
  · have h1 : strLower ext ≠ ".md" := by
      rcases h with h | h | h <;> simp [h]
    simp only [check_file]
    rw [if_neg h1, if_pos]
    simpa using h
  · simp only [check_file]
    rw [if_neg h1, if_neg]
    simpa using h2

/-- Witness for C5 at extensions `".PY"` (commented) and `".txt"`,
`".md"` (raw). -/
theorem C5_default_equals_builtin_witness :
    check_file "x" "x" ".md" none none = raw_match "x" "x" ∧
    check_file "x" "x" ".PY" none none = commented_match "x" "x" "#" ∧
    check_file "x" "x" ".txt" none none = raw_match "x" "x" :=
  ⟨(C5_default_equals_builtin "x" "x" ".md").2.1 (by decide),
   (C5_default_equals_builtin "x" "x" ".PY").2.2.1 (by decide),
   (C5_default_equals_builtin "x" "x" ".txt").2.2.2 (by decide) (by decide)⟩

lemma dictLookup_dictInsert (k k' : String) (v : Option String)
    (m : PrefixDict) :
    dictLookup k' (dictInsert k v m) =
      if k = k' then some v else dictLookup k' m := by
  induction m with
  | nil => simp [dictInsert, dictLookup]
  | cons e rest ih =>
    obtain ⟨k0, v0⟩ := e
    simp only [dictInsert]
    by_cases h0 : k0 = k
    · subst h0
      by_cases h1 : k0 = k' <;> simp [dictLookup, h1]
    · simp only [if_neg h0, dictLookup, ih]
      by_cases h1 : k0 = k'
      · have h2 : ¬ k = k' := fun hh => h0 (h1.trans hh.symm)
        simp [h1, h2]
      · simp [h1]

lemma dictLookup_eq_none_of_not_mem (k : String) (m : PrefixDict)
    (h : k ∉ m.map Prod.fst) : dictLookup k m = none := by
  induction m with
  | nil => rfl
  | cons e rest ih =>
    simp only [List.map_cons, List.mem_cons] at h
    push_neg at h
    simp [dictLookup, Ne.symm h.1, ih h.2]

lemma dictUpdate_lookup_of_none (o : PrefixDict) :
    ∀ (base : PrefixDict) (k : String), dictLookup k o = none →
      dictLookup k (dictUpdate base o) = dictLookup k base := by
  induction o with
  | nil => intro base k _; rfl
  | cons e rest ih =>
    intro base k h
    obtain ⟨k0, v0⟩ := e
    simp only [dictLookup] at h
    by_cases h0 : k0 = k
    · simp [h0] at h
    · rw [if_neg h0] at h
      show dictLookup k (dictUpdate (dictInsert k0 v0 base) rest) = _
      rw [ih (dictInsert k0 v0 base) k h, dictLookup_dictInsert, if_neg h0]

lemma dictUpdate_lookup_of_some (o : PrefixDict) :
    ∀ (base : PrefixDict) (k : String) (v : Option String),
      (o.map Prod.fst).Nodup → dictLookup k o = some v →
      dictLookup k (dictUpdate base o) = some v := by
  induction o with
  | nil => intro base k v _ h; simp [dictLookup] at h
  | cons e rest ih =>
    intro base k v hnd h
    obtain ⟨k0, v0⟩ := e
    simp only [List.map_cons, List.nodup_cons] at hnd
    simp only [dictLookup] at h
    by_cases h0 : k0 = k
    · rw [if_pos h0] at h
      obtain rfl : v0 = v := by injection h
      subst h0
      have hrest : dictLookup k0 rest = none :=
        dictLookup_eq_none_of_not_mem k0 rest hnd.1
      show dictLookup k0 (dictUpdate (dictInsert k0 v0 base) rest) = _
      rw [dictUpdate_lookup_of_none rest (dictInsert k0 v0 base) k0 hrest,
        dictLookup_dictInsert, if_pos rfl]
    · rw [if_neg h0] at h
      exact ih (dictInsert k0 v0 base) k v hnd.2 h

/-- Claim C6: merging an override rule set over the built-in rule set
gives every key of the override its override value, keeps the built-in
value for every other key, leaves the built-in set itself unchanged, and
in particular an override `.py=raw` makes snippet `"x"` match content
`"x"` for extension `.py`. -/
theorem C6_override_merge (o : PrefixDict) (k : String)
    (hnodup : (o.map Prod.fst).Nodup) :
    (∀ v, dictLookup k o = some v →
      dictLookup k (dictUpdate BUILTIN_PREFIX_MAP o) = some v) ∧
    (dictLookup k o = none →
      dictLookup k (dictUpdate BUILTIN_PREFIX_MAP o) =
        dictLookup k BUILTIN_PREFIX_MAP) ∧
    BUILTIN_PREFIX_MAP =
      [(".md", none), (".py", some "#"), (".yml", some "#"),
       (".yaml", some "#")] ∧
    check_file "x" "x" ".py" none
      (some (dictUpdate BUILTIN_PREFIX_MAP [(".py", none)])) = true :=
  ⟨fun v h => dictUpdate_lookup_of_some o BUILTIN_PREFIX_MAP k v hnodup h,
   fun h => dictUpdate_lookup_of_none o BUILTIN_PREFIX_MAP k h,
   rfl, by decide⟩

/-- Witness for C6 with override `[(".py", none), (".js", some "//")]`
at keys `".py"` (replaced), `".js"` (added) and `".md"` (kept). -/
theorem C6_override_merge_witness :
    dictLookup ".py"
      (dictUpdate BUILTIN_PREFIX_MAP [(".py", none), (".js", some "//")]) =
      some none ∧
    dictLookup ".js"
      (dictUpdate BUILTIN_PREFIX_MAP [(".py", none), (".js", some "//")]) =
      some (some "//") ∧
    dictLookup ".md"
      (dictUpdate BUILTIN_PREFIX_MAP [(".py", none), (".js", some "//")]) =
      some none :=
  ⟨(C6_override_merge [(".py", none), (".js", some "//")] ".py"
      (by decide)).1 none (by decide),
   (C6_override_merge [(".py", none), (".js", some "//")] ".js"
      (by decide)).1 (some "//") (by decide),
   by
    rw [(C6_override_merge [(".py", none), (".js", some "//")] ".md"
      (by decide)).2.1 (by decide)]
    decide⟩

lemma splitOnceChar_eq_none_iff (sep : Char) (l : List Char) :
    splitOnceChar sep l = none ↔ sep ∉ l := by
  induction l with
  | nil => simp [splitOnceChar]
  | cons ch rest ih =>
    by_cases h : ch = sep
    · simp [splitOnceChar, h]
    · simp [splitOnceChar, h, ih, Ne.symm h]

lemma parseEntries_ok_iff (segs : List (List Char)) :
    ∀ res : PrefixDict,
      (∃ d, parseEntries segs res = .ok d) ↔ ∀ seg ∈ segs, '=' ∈ seg := by
  induction segs with
  | nil => intro res; simp [parseEntries]
  | cons entry rest ih =>
    intro res
    simp only [parseEntries]
    cases hsp : splitOnceChar '=' entry with
    | none =>
      have : '=' ∉ entry := (splitOnceChar_eq_none_iff '=' entry).1 hsp
      simp [this]
    | some p =>
      have : '=' ∈ entry := by
        by_contra hmem
        rw [(splitOnceChar_eq_none_iff '=' entry).2 hmem] at hsp
        exact Option.noConfusion hsp
      simp [this, ih]

lemma parseEntries_error_mem (segs : List (List Char)) :
    ∀ (res : PrefixDict) (s : String),
      parseEntries segs res = .error (.MalformedRuleEntry s) →
      s.data ∈ segs ∧ '=' ∉ s.data := by
  induction segs with
  | nil => intro res s h; exact Except.noConfusion h
  | cons entry rest ih =>
    intro res s h
    simp only [parseEntries] at h
    cases hsp : splitOnceChar '=' entry with
    | none =>
      rw [hsp] at h
      obtain rfl : s = ⟨entry⟩ := by
        have := Except.error.inj h
        exact (RuleError.MalformedRuleEntry.inj this).symm ▸ rfl
      refine ⟨List.mem_cons_self .., ?_⟩
      exact (splitOnceChar_eq_none_iff '=' entry).1 hsp
    | some p =>
      rw [hsp] at h
      obtain ⟨hm, hnm⟩ := ih _ s h
      exact ⟨List.mem_cons_of_mem _ hm, hnm⟩

/-- Claim C7: `parse_prefix_map` succeeds iff every comma-separated
segment contains `=`; on failure the error is `MalformedRuleEntry`
naming an offending segment; and `MalformedRuleEntry` is the only error
shape the parser can surface (the matchers themselves are total boolean
functions, so no error arises during matching). -/
theorem C7_parse_malformed (ms : String) :
    ((∃ d, parse_prefix_map ms = .ok d) ↔
      ∀ seg ∈ splitOnChar ',' ms.data, '=' ∈ seg) ∧
    (∀ s, parse_prefix_map ms = .error (.MalformedRuleEntry s) →
      s.data ∈ splitOnChar ',' ms.data ∧ '=' ∉ s.data) ∧
    (∀ e : RuleError, ∃ s, e = .MalformedRuleEntry s) :=
  ⟨parseEntries_ok_iff (splitOnChar ',' ms.data) [],
   fun s h => parseEntries_error_mem (splitOnChar ',' ms.data) [] s h,
   fun e => by cases e with | MalformedRuleEntry s => exact ⟨s, rfl⟩⟩

/-- Witness for C7 at the malformed override string `".js"` (no `=`). -/
theorem C7_parse_malformed_witness :
    (".js" : String).data ∈ splitOnChar ',' (".js" : String).data ∧
    '=' ∉ (".js" : String).data :=
  (C7_parse_malformed ".js").2.1 ".js" (by rfl)

lemma pyRstrip_eq_empty_iff (c : String) :
    pyRstrip c = "" ↔ c.data.all pyIsSpace = true := by
  rw [String.ext_iff]
  show (c.data.reverse.dropWhile pyIsSpace).reverse = ("" : String).data ↔ _
  have hd : ("" : String).data = [] := rfl
  rw [hd, List.reverse_eq_nil_iff, List.dropWhile_eq_nil_iff, List.all_eq_true]
  constructor
  · intro h x hx
    exact h x (List.mem_reverse.mpr hx)
  · intro h x hx
    exact h x (List.mem_reverse.mp hx)

lemma empty_append_str (x : String) : "" ++ x = x := by
  apply String.ext
  rw [String.data_append]
  rfl

/-- Claim C9: `check_file` tests presence, not non-emptiness, of the
forced comment marker: forcing the empty marker performs commented
matching with the empty marker regardless of extension or mapping; under
it a nonempty snippet line matches a content line equal to it or to a
single space followed by it, and an empty snippet line matches an empty
or whitespace-only content line. -/
theorem C9_empty_forced_marker (snippet content ext s c : String)
    (pm : Option PrefixDict) (hs : s ≠ "") :
    check_file snippet content ext (some "") pm =
      commented_match snippet content "" ∧
    (line_matches "" s c = true ↔ (c = s ∨ c = " " ++ s)) ∧
    (line_matches "" "" c = true ↔ (c = "" ∨ c.data.all pyIsSpace = true)) := by
  refine ⟨rfl, ?_, ?_⟩
  · simp only [line_matches, if_neg hs, Bool.or_eq_true, decide_eq_true_eq,
      empty_append_str]
    exact or_comm
  · simp [line_matches, pyRstrip_eq_empty_iff]

/-- Witness for C9 at snippet line `"a"` against content lines `" a"`
and (for the empty snippet line) `" a"` itself. -/
theorem C9_empty_forced_marker_witness :
    check_file "a" " a" ".py" (some "") none = commented_match "a" " a" "" ∧
    (line_matches "" "a" " a" = true ↔ (" a" = "a" ∨ " a" = " " ++ "a")) ∧
    (line_matches "" "" " a" = true ↔
      (" a" = "" ∨ (" a" : String).data.all pyIsSpace = true)) :=
  C9_empty_forced_marker "a" " a" ".py" "a" " a" none (by decide)

lemma splitlinesAux_append_newline :
    ∀ (xs acc : List Char), (xs = [] → acc ≠ []) →
      (∀ ch, xs.getLast? = some ch → isLineBreak ch = false) →
      splitlinesAux (xs ++ ['\n']) acc = splitlinesAux xs acc
  | [], acc, hne, _ => by
      have hacc : acc ≠ [] := hne rfl
      have hnl : isLineBreak '\n' = true := rfl
      simp [splitlinesAux, hacc, hnl]
  | [ch], acc, _, hlast => by
      have hch : isLineBreak ch = false := hlast ch rfl
      have hr : ¬ (ch = '\r' ∧ '\n' = '\n') := by
        rintro ⟨h, -⟩
        subst h
        simp [isLineBreak] at hch
      have hnl : isLineBreak '\n' = true := rfl
      show splitlinesAux [ch, '\n'] acc = splitlinesAux [ch] acc
      have eL : splitlinesAux [ch, '\n'] acc =
          if ch = '\r' ∧ '\n' = '\n' then acc.reverse :: splitlinesAux [] []
          else if isLineBreak ch then acc.reverse :: splitlinesAux ['\n'] []
          else splitlinesAux ['\n'] (ch :: acc) := rfl
      have e2 : splitlinesAux ['\n'] (ch :: acc) =
          if isLineBreak '\n' then [(ch :: acc).reverse]
          else [('\n' :: ch :: acc).reverse] := rfl
      have eR : splitlinesAux [ch] acc =
          if isLineBreak ch then [acc.reverse] else [(ch :: acc).reverse] := rfl
      rw [eL, if_neg hr, if_neg (by simp [hch]), e2, if_pos hnl, eR,
        if_neg (by simp [hch])]
  | ch :: ch2 :: rest, acc, _, hlast => by
      have hlast' : ∀ c', (ch2 :: rest).getLast? = some c' →
          isLineBreak c' = false := by
        intro c' hc'
        apply hlast
        rw [List.getLast?_cons_cons]
        exact hc'
      have eL : splitlinesAux ((ch :: ch2 :: rest) ++ ['\n']) acc =
          if ch = '\r' ∧ ch2 = '\n' then
            acc.reverse :: splitlinesAux (rest ++ ['\n']) []
          else if isLineBreak ch then
            acc.reverse :: splitlinesAux ((ch2 :: rest) ++ ['\n']) []
          else splitlinesAux ((ch2 :: rest) ++ ['\n']) (ch :: acc) := rfl
      have eR : splitlinesAux (ch :: ch2 :: rest) acc =
          if ch = '\r' ∧ ch2 = '\n' then acc.reverse :: splitlinesAux rest []
          else if isLineBreak ch then acc.reverse :: splitlinesAux (ch2 :: rest) []
          else splitlinesAux (ch2 :: rest) (ch :: acc) := rfl
      rw [eL, eR]
      by_cases hcr : ch = '\r' ∧ ch2 = '\n'
      · have hrest : rest ≠ [] := by
          intro hr
          subst hr
          have hb := hlast' ch2 rfl
          rw [hcr.2] at hb
          exact absurd hb (by simp [isLineBreak])
        have hrlast : ∀ c', rest.getLast? = some c' → isLineBreak c' = false := by
          intro c' hc'
          apply hlast'
          cases rest with
          | nil => exact absurd rfl hrest
          | cons r rs => rw [List.getLast?_cons_cons]; exact hc'
        rw [if_pos hcr, if_pos hcr]
        congr 1
        exact splitlinesAux_append_newline rest []
          (fun hr => absurd hr hrest) hrlast
      · rw [if_neg hcr, if_neg hcr]
        by_cases hbr : isLineBreak ch = true
        · rw [if_pos hbr, if_pos hbr]
          congr 1
          exact splitlinesAux_append_newline (ch2 :: rest) []
            (fun h => List.noConfusion h) hlast'
        · rw [if_neg hbr, if_neg hbr]
          exact splitlinesAux_append_newline (ch2 :: rest) (ch :: acc)
            (fun h => List.noConfusion h) hlast'

lemma splitlines_append_newline (s : String) (hne : s ≠ "")
    (hlast : endsWithLineBoundary s = false) :
    splitlines (s ++ "\n") = splitlines s := by
  unfold splitlines
  congr 1
  rw [String.data_append]
  have hd : ("\n" : String).data = ['\n'] := rfl
  rw [hd]
  apply splitlinesAux_append_newline
  · intro h0
    exact absurd (String.ext (by rw [h0])) hne
  · intro ch hch
    unfold endsWithLineBoundary at hlast
    rw [hch] at hlast
    exact hlast

/-- Counterexample to C10 as stated: the empty snippet does not end in a
line-boundary character, yet appending a newline changes the result
(`""` splits into zero lines and matches vacuously, `"\n"` splits into
one empty line and fails against `"x"`); symmetrically for the empty
content against snippet `"\n"`. -/
theorem C10_counterexample :
    endsWithLineBoundary "" = false ∧
    commented_match ("" ++ "\n") "x" "#" ≠ commented_match "" "x" "#" ∧
    commented_match "\n" ("" ++ "\n") "#" ≠ commented_match "\n" "" "#" := by
  refine ⟨rfl, ?_, ?_⟩ <;> decide

/-- Claim C10 amended: for a NONEMPTY snippet not ending in a
line-boundary character, appending one final newline never changes
`commented_match`; symmetrically for nonempty content not ending in a
line-boundary character. -/
theorem C10_terminal_newline (s c p : String) :
    (s ≠ "" → endsWithLineBoundary s = false →
      commented_match (s ++ "\n") c p = commented_match s c p) ∧
    (c ≠ "" → endsWithLineBoundary c = false →
      commented_match s (c ++ "\n") p = commented_match s c p) := by
  constructor
  · intro h1 h2
    unfold commented_match
    rw [splitlines_append_newline s h1 h2]
  · intro h1 h2
    unfold commented_match
    rw [splitlines_append_newline c h1 h2]

/-- Witness for C10 at snippet `"x"`, content `"# x"`. -/
theorem C10_terminal_newline_witness :
    commented_match ("x" ++ "\n") "# x" "#" = commented_match "x" "# x" "#" ∧
    commented_match "x" ("# x" ++ "\n") "#" = commented_match "x" "# x" "#" :=
  ⟨(C10_terminal_newline "x" "# x" "#").1 (by decide) (by decide),
   (C10_terminal_newline "x" "# x" "#").2 (by decide) (by decide)⟩


end ContainsSnippet
